import Mathlib

/-!
Verification of the muse-eeg repository: a shallow embedding of the
pure computational parts of `src/stream.py`, `src/analyze.py` and
`src/visualize.py`, with theorems settling the frozen claims about the
packet codec, the ring buffer, the telemetry decoder, the band-power
analyzer and the BLE connection supervision loop.

Bytes are modelled as natural numbers (a well-formedness hypothesis
`< 256` is added where a claim depends on it), floats as rationals, and
Python's truncating integer arithmetic as Lean's natural division.
-/

set_option maxRecDepth 10000

/-- `EEG_SCALE = 1000.0 / 2048.0` (stream.py line 48, visualize.py line 52):
12-bit raw value to microvolts. -/
def EEG_SCALE : ℚ := 1000 / 2048

/-- The body of the `for i in range(12)` loop of `unpack_eeg_samples`
(stream.py lines 57-71; identical to `unpack_eeg`, visualize.py lines 72-86),
written with an explicit countdown `k` of remaining iterations so the
recursion is structural; `i` is the current loop index.  In both parity
branches the Python guard is `byte_idx + 1 < len(data)`, and `break` ends
the loop, so the guard is hoisted outside the parity split. -/
def unpackGo (data : List ℕ) : ℕ → ℕ → List ℚ
  | _, 0 => []
  | i, k + 1 =>
    let byte_idx := 2 + i * 3 / 2
    if byte_idx + 1 < data.length then
      let raw : ℕ :=
        if i % 2 = 0 then
          ((data.getD byte_idx 0) <<< 4) ||| ((data.getD (byte_idx + 1) 0) >>> 4)
        else
          (((data.getD byte_idx 0) &&& 0x0F) <<< 8) ||| (data.getD (byte_idx + 1) 0)
      ((raw : ℚ) - 2048) * EEG_SCALE :: unpackGo data (i + 1) k
    else []

/-- `unpack_eeg_samples` (stream.py lines 55-71): unpack 12 x 12-bit EEG
samples from a 20-byte packet (first 2 bytes = counter). -/
def unpack_eeg_samples (data : List ℕ) : List ℚ := unpackGo data 0 12

/-- The raw 12-bit value of sample `i`, written the way the spec words it:
even-indexed samples take the high byte plus the high nibble of the next
byte, odd-indexed samples take the low nibble of the current byte plus the
next byte, reading from payload offset 2. -/
def rawSpec (data : List ℕ) (i : ℕ) : ℕ :=
  let byte_idx := 2 + i * 3 / 2
  if i % 2 = 0 then
    (data.getD byte_idx 0) * 16 + (data.getD (byte_idx + 1) 0) / 16
  else
    (data.getD byte_idx 0 % 16) * 256 + data.getD (byte_idx + 1) 0

/-- Big-endian signed 16-bit integer, as decoded by `struct.unpack(">hhh", ...)`
(stream.py line 81, visualize.py line 94). -/
def int16be (hi lo : ℕ) : ℤ :=
  let u := hi * 256 + lo
  if u < 32768 then (u : ℤ) else (u : ℤ) - 65536

/-- The triple `struct.unpack(">hhh", data[offset:offset+6])` read at
`offset = 2 + i * 6` (stream.py line 81). -/
def imuTriple (data : List ℕ) (i : ℕ) : ℤ × ℤ × ℤ :=
  (int16be (data.getD (2 + i * 6) 0) (data.getD (2 + i * 6 + 1) 0),
   int16be (data.getD (2 + i * 6 + 2) 0) (data.getD (2 + i * 6 + 3) 0),
   int16be (data.getD (2 + i * 6 + 4) 0) (data.getD (2 + i * 6 + 5) 0))

/-- `unpack_imu_samples` (stream.py lines 74-83; identical to `unpack_imu`,
visualize.py lines 89-96): up to 3 accel/gyro triples at consecutive 6-byte
offsets starting at payload offset 2.  The loop has no `break`; sample `i`
is kept exactly when `offset + 6 <= len(data)`. -/
def unpack_imu_samples (data : List ℕ) : List (ℤ × ℤ × ℤ) :=
  (List.range 3).filterMap (fun i =>
    if 2 + i * 6 + 6 ≤ data.length then some (imuTriple data i) else none)

-- ---------------------------------------------------------------------
-- Helper lemmas for the 12-bit nibble arithmetic.
-- ---------------------------------------------------------------------

lemma shiftLeft4_or_eq (b d : ℕ) (hb : b < 256) (hd : d < 16) :
    (b <<< 4) ||| d = b * 16 + d := by
  have h : ∀ b' < 256, ∀ d' < 16, ((b' : ℕ) <<< 4) ||| d' = b' * 16 + d' := by decide
  exact h b hb d hd

lemma shiftLeft8_or_eq (a c : ℕ) (ha : a < 16) (hc : c < 256) :
    (a <<< 8) ||| c = a * 256 + c := by
  have h : ∀ a' < 16, ∀ c' < 256, ((a' : ℕ) <<< 8) ||| c' = a' * 256 + c' := by decide
  exact h a ha c hc

lemma shiftRight4_eq (c : ℕ) : c >>> 4 = c / 16 := by
  simpa using Nat.shiftRight_eq_div_pow c 4

lemma and15_eq (b : ℕ) : b &&& 0x0F = b % 16 := by
  simpa using Nat.and_pow_two_sub_one_eq_mod b 4

/-- On a frame with every byte below 256, the raw value computed by the code
(shifts and bitwise or) agrees with the spec-side arithmetic `rawSpec`. -/
lemma raw_code_eq_spec (data : List ℕ) (hb : ∀ x ∈ data, x < 256) (i : ℕ)
    (hidx : 2 + i * 3 / 2 + 1 < data.length) :
    (if i % 2 = 0 then
      ((data.getD (2 + i * 3 / 2) 0) <<< 4) ||| ((data.getD (2 + i * 3 / 2 + 1) 0) >>> 4)
    else
      (((data.getD (2 + i * 3 / 2) 0) &&& 0x0F) <<< 8) ||| (data.getD (2 + i * 3 / 2 + 1) 0))
    = rawSpec data i := by
  have h0 : data.getD (2 + i * 3 / 2) 0 < 256 := by
    have hm : data.getD (2 + i * 3 / 2) 0 ∈ data := by
      rw [List.getD_eq_getElem data 0 (by omega)]
      exact List.getElem_mem _
    exact hb _ hm
  have h1 : data.getD (2 + i * 3 / 2 + 1) 0 < 256 := by
    have hm : data.getD (2 + i * 3 / 2 + 1) 0 ∈ data := by
      rw [List.getD_eq_getElem data 0 (by omega)]
      exact List.getElem_mem _
    exact hb _ hm
  unfold rawSpec
  by_cases hpar : i % 2 = 0
  · simp only [hpar, if_true]
    rw [shiftRight4_eq, shiftLeft4_or_eq _ _ h0 (by omega)]
  · simp only [hpar, if_false]
    rw [and15_eq, shiftLeft8_or_eq _ _ (by omega) h1]

/-- Characterization of the decode loop: starting at index `i` with `12 - i`
iterations left on a 20-byte frame, the loop yields one sample per index. -/
lemma unpackGo_eq_map (data : List ℕ) (hb : ∀ x ∈ data, x < 256)
    (hlen : data.length = 20) :
    ∀ k i, i + k = 12 →
      unpackGo data i k
        = (List.range' i k).map (fun j => ((rawSpec data j : ℚ) - 2048) * EEG_SCALE) := by
  intro k
  induction k with
  | zero => intro i _; simp [unpackGo]
  | succ k ih =>
    intro i hik
    have hi : i ≤ 11 := by omega
    have hidx : 2 + i * 3 / 2 + 1 < data.length := by
      rw [hlen]; omega
    rw [List.range'_succ, List.map_cons, ← ih (i + 1) (by omega)]
    show (if 2 + i * 3 / 2 + 1 < data.length then _ else _) = _
    rw [if_pos hidx]
    have hraw := raw_code_eq_spec data hb i hidx
    by_cases hpar : i % 2 = 0
    · rw [if_pos hpar] at hraw ⊢
      rw [hraw]
    · rw [if_neg hpar] at hraw ⊢
      rw [hraw]

/-- Every byte-like entry read by the codec is below 256 when the frame is
well-formed (out-of-range reads return the default 0). -/
lemma getD_lt_256 (data : List ℕ) (hb : ∀ x ∈ data, x < 256) (n : ℕ) :
    data.getD n 0 < 256 := by
  by_cases h : n < data.length
  · have hm : data.getD n 0 ∈ data := by
      rw [List.getD_eq_getElem data 0 h]
      exact List.getElem_mem _
    exact hb _ hm
  · rw [List.getD_eq_default data 0 (by omega)]
    omega

/-- C1. For every well-formed (20-byte) scalar frame the decoder returns
exactly 12 values; sample `i` is `(raw - 2048) * 1000/2048` where `raw` is
the 12-bit value assembled as the spec describes (even: high byte plus high
nibble of the next byte; odd: low nibble of the current byte plus the next
byte; payload offset 2), and every raw value lies in `[0, 4095]`. -/
theorem decodeScalarFrame_wellformed (data : List ℕ)
    (hlen : data.length = 20) (hb : ∀ x ∈ data, x < 256) :
    (unpack_eeg_samples data).length = 12 ∧
    unpack_eeg_samples data
      = (List.range 12).map (fun i => ((rawSpec data i : ℚ) - 2048) * (1000 / 2048)) ∧
    ∀ i < 12, rawSpec data i ≤ 4095 := by
  have hmap := unpackGo_eq_map data hb hlen 12 0 (by omega)
  have hscale : EEG_SCALE = (1000 / 2048 : ℚ) := rfl
  have hrange : List.range 12 = List.range' 0 12 := List.range_eq_range' 12
  refine ⟨?_, ?_, ?_⟩
  · rw [unpack_eeg_samples, hmap]
    simp
  · rw [unpack_eeg_samples, hmap, hrange, hscale]
  · intro i _
    have h0 := getD_lt_256 data hb (2 + i * 3 / 2)
    have h1 := getD_lt_256 data hb (2 + i * 3 / 2 + 1)
    rw [rawSpec]
    by_cases hpar : i % 2 = 0
    · rw [if_pos hpar]; omega
    · rw [if_neg hpar]; omega

theorem decodeScalarFrame_wellformed_witness :
    ((List.range 20).length = 20 ∧ (∀ x ∈ List.range 20, x < 256)) ∧
    ((unpack_eeg_samples (List.range 20)).length = 12 ∧
     unpack_eeg_samples (List.range 20)
       = (List.range 12).map
           (fun i => ((rawSpec (List.range 20) i : ℚ) - 2048) * (1000 / 2048)) ∧
     ∀ i < 12, rawSpec (List.range 20) i ≤ 4095) :=
  ⟨⟨by decide, by decide⟩,
   decodeScalarFrame_wellformed (List.range 20) (by decide) (by decide)⟩


/-- One-step unfolding of the decode loop. -/
lemma unpackGo_succ (data : List ℕ) (i k : ℕ) :
    unpackGo data i (k + 1) =
      if 2 + i * 3 / 2 + 1 < data.length then
        ((((if i % 2 = 0 then
            ((data.getD (2 + i * 3 / 2) 0) <<< 4)
              ||| ((data.getD (2 + i * 3 / 2 + 1) 0) >>> 4)
          else
            (((data.getD (2 + i * 3 / 2) 0) &&& 0x0F) <<< 8)
              ||| (data.getD (2 + i * 3 / 2 + 1) 0) : ℕ)) : ℚ) - 2048) * EEG_SCALE
          :: unpackGo data (i + 1) k
      else [] := rfl

lemma unpackGo_length_le (data : List ℕ) : ∀ k i, (unpackGo data i k).length ≤ k := by
  intro k
  induction k with
  | zero => intro i; simp [unpackGo]
  | succ k ih =>
    intro i
    rw [unpackGo_succ]
    split
    · simpa using Nat.succ_le_succ (ih (i + 1))
    · simp

lemma unpackGo_append (data extra : List ℕ) :
    ∀ k i, ∃ t, unpackGo (data ++ extra) i k = unpackGo data i k ++ t := by
  intro k
  induction k with
  | zero => exact fun i => ⟨[], by simp [unpackGo]⟩
  | succ k ih =>
    intro i
    by_cases h : 2 + i * 3 / 2 + 1 < data.length
    · have h' : 2 + i * 3 / 2 + 1 < (data ++ extra).length := by
        rw [List.length_append]; omega
      have e0 : (data ++ extra).getD (2 + i * 3 / 2) 0 = data.getD (2 + i * 3 / 2) 0 :=
        List.getD_append _ _ _ _ (by omega)
      have e1 : (data ++ extra).getD (2 + i * 3 / 2 + 1) 0
          = data.getD (2 + i * 3 / 2 + 1) 0 :=
        List.getD_append _ _ _ _ (by omega)
      obtain ⟨t, ht⟩ := ih (i + 1)
      refine ⟨t, ?_⟩
      rw [unpackGo_succ, unpackGo_succ, if_pos h', if_pos h, e0, e1, ht]
      simp
    · refine ⟨unpackGo (data ++ extra) i (k + 1), ?_⟩
      rw [unpackGo_succ data, if_neg h]
      simp

/-- The three guard conditions of the IMU loop, made explicit: sample `i`
is kept exactly when `2 + i * 6 + 6 ≤ len`, i.e. thresholds 8, 14, 20. -/
lemma unpack_imu_eq_ifchain (data : List ℕ) :
    unpack_imu_samples data =
      (if 8 ≤ data.length then [imuTriple data 0] else []) ++
      (if 14 ≤ data.length then [imuTriple data 1] else []) ++
      (if 20 ≤ data.length then [imuTriple data 2] else []) := by
  have h3 : List.range 3 = [0, 1, 2] := rfl
  rw [unpack_imu_samples, h3]
  simp only [List.filterMap_cons, List.filterMap_nil]
  norm_num
  by_cases h8 : 8 ≤ data.length <;> by_cases h14 : 14 ≤ data.length <;>
    by_cases h20 : 20 ≤ data.length <;>
      simp [h8, h14, h20]

/-- Reading a triple entirely inside `data` gives the same result on the
extended frame `data ++ extra`. -/
lemma imuTriple_append (data extra : List ℕ) (i : ℕ)
    (h : 2 + i * 6 + 6 ≤ data.length) :
    imuTriple (data ++ extra) i = imuTriple data i := by
  unfold imuTriple
  rw [List.getD_append _ _ _ _ (by omega), List.getD_append _ _ _ _ (by omega),
    List.getD_append _ _ _ _ (by omega), List.getD_append _ _ _ _ (by omega),
    List.getD_append _ _ _ _ (by omega), List.getD_append _ _ _ _ (by omega)]

/-- Decoding a truncation yields a prefix of decoding the full IMU frame. -/
lemma imu_append_aux (data extra : List ℕ) :
    ∃ t, unpack_imu_samples (data ++ extra) = unpack_imu_samples data ++ t := by
  have hlen : data.length ≤ (data ++ extra).length := by
    rw [List.length_append]; omega
  rw [unpack_imu_eq_ifchain data, unpack_imu_eq_ifchain (data ++ extra)]
  by_cases h20 : 20 ≤ data.length
  · have h14 : 14 ≤ data.length := by omega
    have h8 : 8 ≤ data.length := by omega
    refine ⟨[], ?_⟩
    simp only [if_pos h8, if_pos h14, if_pos h20,
      if_pos (le_trans h8 hlen), if_pos (le_trans h14 hlen), if_pos (le_trans h20 hlen),
      imuTriple_append data extra 0 (by omega), imuTriple_append data extra 1 (by omega),
      imuTriple_append data extra 2 (by omega)]
    rw [List.append_nil]
  · by_cases h14 : 14 ≤ data.length
    · have h8 : 8 ≤ data.length := by omega
      refine ⟨if 20 ≤ (data ++ extra).length then [imuTriple (data ++ extra) 2] else [],
        ?_⟩
      simp only [if_pos h8, if_pos h14, if_neg h20,
        if_pos (le_trans h8 hlen), if_pos (le_trans h14 hlen),
        imuTriple_append data extra 0 (by omega), imuTriple_append data extra 1 (by omega)]
      rw [List.append_nil]
    · by_cases h8 : 8 ≤ data.length
      · refine ⟨(if 14 ≤ (data ++ extra).length then [imuTriple (data ++ extra) 1]
            else []) ++
          (if 20 ≤ (data ++ extra).length then [imuTriple (data ++ extra) 2] else []),
          ?_⟩
        simp only [if_pos h8, if_neg h14, if_neg h20, if_pos (le_trans h8 hlen),
          imuTriple_append data extra 0 (by omega)]
        rw [List.append_nil, List.append_nil, List.append_assoc]
      · refine ⟨(if 8 ≤ (data ++ extra).length then [imuTriple (data ++ extra) 0]
            else []) ++
          (if 14 ≤ (data ++ extra).length then [imuTriple (data ++ extra) 1] else []) ++
          (if 20 ≤ (data ++ extra).length then [imuTriple (data ++ extra) 2] else []),
          ?_⟩
        rw [if_neg h8, if_neg h14, if_neg h20, List.nil_append, List.nil_append,
          List.nil_append]

/-- C5. Both decoders are total on arbitrary byte strings: the scalar
decoder returns at most 12 values and the triplet decoder at most 3; and
a truncated input decodes to a (possibly empty) prefix of what the full
frame decodes to — never an error. -/
theorem codec_total_safe (data extra : List ℕ) :
    (unpack_eeg_samples data).length ≤ 12 ∧
    (unpack_imu_samples data).length ≤ 3 ∧
    (∃ t, unpack_eeg_samples (data ++ extra) = unpack_eeg_samples data ++ t) ∧
    (∃ t, unpack_imu_samples (data ++ extra) = unpack_imu_samples data ++ t) := by
  refine ⟨unpackGo_length_le data 12 0, ?_, unpackGo_append data extra 12 0,
    imu_append_aux data extra⟩
  calc (unpack_imu_samples data).length
      ≤ (List.range 3).length := List.length_filterMap_le _ _
    _ = 3 := by simp

-- ---------------------------------------------------------------------
-- RingBuffer (visualize.py lines 99-130).
-- ---------------------------------------------------------------------

/-- `RingBuffer` (visualize.py lines 99-107): a fixed-capacity numpy array
with a write cursor.  The float array initialized with `np.full(capacity,
np.nan)` is modelled as a list of `Option ℚ`, the NaN sentinel being
`none`; `len` mirrors `_len` (the capacity) and `idx` mirrors `_idx`. -/
structure RingBuffer where
  buf : List (Option ℚ)
  len : ℕ
  idx : ℕ

/-- `RingBuffer.__init__` (visualize.py lines 104-107). -/
def RingBuffer.new (capacity : ℕ) : RingBuffer :=
  ⟨List.replicate capacity none, capacity, 0⟩

/-- `RingBuffer.extend` (visualize.py lines 109-124).  The two numpy slice
assignments of the wrap-around branch are modelled as two successive list
updates. -/
def RingBuffer.extend (rb : RingBuffer) (values : List ℚ) : RingBuffer :=
  let n := values.length
  if n = 0 then rb
  else if rb.len ≤ n then
    ⟨(values.drop (n - rb.len)).map some, rb.len, 0⟩
  else
    let e := rb.idx + n
    if e ≤ rb.len then
      ⟨rb.buf.take rb.idx ++ values.map some ++ rb.buf.drop e, rb.len, e % rb.len⟩
    else
      let first := rb.len - rb.idx
      let buf1 := rb.buf.take rb.idx ++ (values.take first).map some
      ⟨(values.drop first).map some ++ buf1.drop (n - first), rb.len, e % rb.len⟩

/-- `RingBuffer.get_ordered` (visualize.py lines 126-130): data in time
order, oldest first. -/
def RingBuffer.get_ordered (rb : RingBuffer) : List (Option ℚ) :=
  if rb.idx = 0 then rb.buf else rb.buf.drop rb.idx ++ rb.buf.take rb.idx

/-- C3. A fresh buffer of capacity `N` extended once with `M` values: if
`M < N`, `get_ordered` is `N - M` sentinel entries followed by the `M`
values in order and the cursor is `M`; if `M ≥ N`, `get_ordered` is
exactly the last `N` values in order and the cursor is `0`. -/
theorem ringBuffer_fresh_extend (N : ℕ) (vs : List ℚ) (hN : 0 < N) :
    (vs.length < N →
      ((RingBuffer.new N).extend vs).get_ordered
        = List.replicate (N - vs.length) none ++ vs.map some ∧
      ((RingBuffer.new N).extend vs).idx = vs.length) ∧
    (N ≤ vs.length →
      ((RingBuffer.new N).extend vs).get_ordered
        = (vs.drop (vs.length - N)).map some ∧
      ((RingBuffer.new N).extend vs).idx = 0) := by
  constructor
  · intro hMN
    by_cases h0 : vs.length = 0
    · have hvs : vs = [] := List.eq_nil_of_length_eq_zero h0
      subst hvs
      have hext : (RingBuffer.new N).extend [] = RingBuffer.new N := rfl
      rw [hext]
      constructor
      · simp [RingBuffer.get_ordered, RingBuffer.new]
      · rfl
    · have hM : 0 < vs.length := Nat.pos_of_ne_zero h0
      have hext : (RingBuffer.new N).extend vs
          = ⟨vs.map some ++ List.replicate (N - vs.length) none, N, vs.length⟩ := by
        rw [RingBuffer.extend]
        simp only [RingBuffer.new]
        rw [if_neg h0, if_neg (by omega : ¬ N ≤ vs.length),
          if_pos (by omega : 0 + vs.length ≤ N)]
        rw [List.take_zero, List.drop_replicate, List.nil_append,
          Nat.mod_eq_of_lt (by omega)]
        simp
      rw [hext]
      constructor
      · rw [RingBuffer.get_ordered]
        simp only
        rw [if_neg (by omega : ¬ vs.length = 0)]
        have hlm : (vs.map some).length = vs.length := List.length_map vs some
        rw [List.drop_left' hlm, List.take_left' hlm]
      · rfl
  · intro hNM
    have h0 : ¬ vs.length = 0 := by omega
    have hext : (RingBuffer.new N).extend vs
        = ⟨(vs.drop (vs.length - N)).map some, N, 0⟩ := by
      rw [RingBuffer.extend]
      simp only [RingBuffer.new]
      rw [if_neg h0, if_pos hNM]
    rw [hext]
    exact ⟨by simp [RingBuffer.get_ordered], rfl⟩

theorem ringBuffer_fresh_extend_witness :
    (0 < 3) ∧
    ((([(5 : ℚ)] : List ℚ).length < 3 →
      ((RingBuffer.new 3).extend [(5 : ℚ)]).get_ordered
        = List.replicate (3 - ([(5 : ℚ)] : List ℚ).length) none
            ++ ([(5 : ℚ)] : List ℚ).map some ∧
      ((RingBuffer.new 3).extend [(5 : ℚ)]).idx = ([(5 : ℚ)] : List ℚ).length) ∧
    (3 ≤ ([(5 : ℚ)] : List ℚ).length →
      ((RingBuffer.new 3).extend [(5 : ℚ)]).get_ordered
        = (([(5 : ℚ)] : List ℚ).drop (([(5 : ℚ)] : List ℚ).length - 3)).map some ∧
      ((RingBuffer.new 3).extend [(5 : ℚ)]).idx = 0)) :=
  ⟨by decide, ringBuffer_fresh_extend 3 [(5 : ℚ)] (by decide)⟩

-- ---------------------------------------------------------------------
-- Telemetry decoding (visualize.py lines 334-336).
-- ---------------------------------------------------------------------

/-- `MuseBLE._telem_handler` (visualize.py lines 334-336): the update of
`self.data.battery`, as a function of the payload and the stored value.
The code guards on `len(raw) >= 6` and reads
`int.from_bytes(raw[2:4], "big") / 100`. -/
def telem_handler (raw : List ℕ) (battery : ℚ) : ℚ :=
  if 6 ≤ raw.length then ((raw.getD 2 0 * 256 + raw.getD 3 0 : ℕ) : ℚ) / 100
  else battery

/-- C7 counterexample: a 4-byte payload does NOT update the battery value,
although the claim says every payload of length at least 4 does.  Payload
`[0, 0, 1, 0]` carries the big-endian value 256 at offset 2, so the claim
would require the stored value 0 to become 2.56; the code leaves it 0. -/
theorem telem_len4_counterexample :
    telem_handler [0, 0, 1, 0] 0 = 0 ∧
    telem_handler [0, 0, 1, 0] 0 ≠ ((1 * 256 + 0 : ℕ) : ℚ) / 100 := by
  constructor
  · rfl
  · intro h
    have : (0 : ℚ) = 256 / 100 := by simpa using h
    norm_num at this

/-- C7 amended: the battery percentage is updated to the unsigned 16-bit
big-endian value at payload offset 2 divided by 100 exactly when the
payload is at least 6 bytes long; shorter payloads leave it unchanged. -/
theorem telem_update_amended (raw : List ℕ) (battery : ℚ) :
    (6 ≤ raw.length →
      telem_handler raw battery = ((raw.getD 2 0 * 256 + raw.getD 3 0 : ℕ) : ℚ) / 100) ∧
    (raw.length < 6 → telem_handler raw battery = battery) := by
  constructor
  · intro h; rw [telem_handler, if_pos h]
  · intro h; rw [telem_handler, if_neg (by omega)]

theorem telem_update_amended_witness :
    telem_handler [1, 2, 3, 4, 5, 6] 7 = ((3 * 256 + 4 : ℕ) : ℚ) / 100 ∧
    telem_handler [9, 9] 7 = 7 :=
  ⟨by
    have h := (telem_update_amended [1, 2, 3, 4, 5, 6] 7).1 (by decide)
    simpa using h,
   (telem_update_amended [9, 9] 7).2 (by decide)⟩

-- ---------------------------------------------------------------------
-- Band-power analysis (analyze.py lines 27-124).
-- ---------------------------------------------------------------------

/-- Modelled from the spec: `scipy.signal.welch` is external library code
(not part of this repository); it is abstracted as a parameter mapping a
(already mean-removed) segment to the pair `(freqs, psd)`.  Every claim
about the analyzer is proved for an arbitrary such function. -/
abbrev WelchFn : Type := List ℚ → List ℚ × List ℚ

/-- `SAMPLE_RATE = 256` (analyze.py line 27). -/
def SAMPLE_RATE : ℕ := 256

/-- `BANDS` (analyze.py lines 29-35), in dict insertion order. -/
def BANDS : List (String × ℚ × ℚ) :=
  [("delta", 1 / 2, 4), ("theta", 4, 8), ("alpha", 8, 13),
   ("beta", 13, 30), ("gamma", 30, 50)]

/-- `np.mean` on a list of rationals (division by zero gives 0 in ℚ,
matching the "0 if no bin" guard which keeps the argument nonempty). -/
def npMean (l : List ℚ) : ℚ := l.sum / l.length

/-- `segment - np.mean(segment)` (analyze.py line 84). -/
def demean (l : List ℚ) : List ℚ := l.map (fun x => x - npMean l)

/-- `data[start:start + window_samples]` (analyze.py line 83). -/
def windowAt (data : List ℚ) (start ws : ℕ) : List ℚ := (data.drop start).take ws

/-- `psd[mask]` for `mask = (freqs >= lo) & (freqs <= hi)` (analyze.py
lines 89-90): the psd entries whose frequency bin lies inside the band. -/
def inBandPSD (freqs psd : List ℚ) (lo hi : ℚ) : List ℚ :=
  ((freqs.zip psd).filter (fun fp => decide (lo ≤ fp.1) && decide (fp.1 ≤ hi))).map
    Prod.snd

/-- `np.mean(psd[mask]) if mask.any() else 0` (analyze.py line 90). -/
def bandPower (freqs psd : List ℚ) (lo hi : ℚ) : ℚ :=
  if freqs.any (fun f => decide (lo ≤ f) && decide (f ≤ hi)) then
    npMean (inBandPSD freqs psd lo hi)
  else 0

/-- Number of elements of Python's `range(0, stop, step)` for `stop` already
clamped at 0 (a negative Python stop is modelled by ℕ truncation). -/
def pyRangeLen (stop step : ℕ) : ℕ := (stop + step - 1) / step

/-- Python's `range(0, stop, step)` (analyze.py line 82). -/
def pyRange (stop step : ℕ) : List ℕ := (List.range (pyRangeLen stop step)).map (· * step)

/-- `compute_band_powers` (analyze.py lines 73-94).  `int(fs * window_sec)`
is `((fs : ℚ) * window_sec).floor.toNat`; `step = window_samples // 2`;
the loop `for start in range(0, n - window_samples, step)` appends one time
and one power per band per window, modelled as maps over the start list. -/
def compute_band_powers (welchF : WelchFn) (data : List ℚ) (fs : ℕ)
    (window_sec : ℚ) : List ℚ × List (String × List ℚ) :=
  let window_samples := ((fs : ℚ) * window_sec).floor.toNat
  let step := window_samples / 2
  let starts := pyRange (data.length - window_samples) step
  let segs := starts.map (fun s => demean (windowAt data s window_samples))
  (starts.map (fun (s : ℕ) => ((s : ℚ) + (window_samples : ℚ) / 2) / (fs : ℚ)),
   BANDS.map (fun blh =>
     (blh.1, segs.map (fun seg => bandPower (welchF seg).1 (welchF seg).2 blh.2.1 blh.2.2))))

/-- `alpha_asymmetry` (analyze.py lines 112-124).  `np.log` is external
library code, abstracted as the parameter `logF`; `epsilon = 1e-10`. -/
def alpha_asymmetry (logF : ℚ → ℚ) (welchF : WelchFn)
    (left_data right_data : List ℚ) (fs : ℕ) (window_sec : ℚ) :
    List ℚ × List ℚ :=
  let l := compute_band_powers welchF left_data fs window_sec
  let r := compute_band_powers welchF right_data fs window_sec
  let la := (l.2.lookup "alpha").getD []
  let ra := (r.2.lookup "alpha").getD []
  let n := min la.length ra.length
  let left_alpha := la.take n
  let right_alpha := ra.take n
  (l.1.take n,
   List.zipWith (fun lv rv => logF (rv + 1 / 10 ^ 10) - logF (lv + 1 / 10 ^ 10))
     left_alpha right_alpha)

/-- `EEG_BUF_LEN = EEG_RATE * EEG_WINDOW = 1280` (visualize.py line 47). -/
def EEG_BUF_LEN : ℕ := 256 * 5

/-- The codec → buffer → analyzer pipeline: decode each raw frame, extend
the channel's ring buffer (visualize.py lines 308-310), then analyze the
valid (non-sentinel) samples as `_update_signal_processing` does
(visualize.py lines 708-721). -/
def pipeline (welchF : WelchFn) (frames : List (List ℕ)) :
    List ℚ × List (String × List ℚ) :=
  let rb := frames.foldl (fun rb f => rb.extend (unpack_eeg_samples f))
    (RingBuffer.new EEG_BUF_LEN)
  compute_band_powers welchF (rb.get_ordered.filterMap id) 256 2

/-- Unfolding of the times component of `compute_band_powers`. -/
lemma cbp_fst (welchF : WelchFn) (data : List ℚ) (fs : ℕ) (wsec : ℚ) :
    (compute_band_powers welchF data fs wsec).1
      = (pyRange (data.length - ((fs : ℚ) * wsec).floor.toNat)
          (((fs : ℚ) * wsec).floor.toNat / 2)).map
          (fun (s : ℕ) =>
            ((s : ℚ) + ((((fs : ℚ) * wsec).floor.toNat : ℕ) : ℚ) / 2) / (fs : ℚ))
    := rfl

/-- Unfolding of the per-band powers component of `compute_band_powers`. -/
lemma cbp_snd (welchF : WelchFn) (data : List ℚ) (fs : ℕ) (wsec : ℚ) :
    (compute_band_powers welchF data fs wsec).2
      = BANDS.map (fun blh =>
          (blh.1,
           ((pyRange (data.length - ((fs : ℚ) * wsec).floor.toNat)
               (((fs : ℚ) * wsec).floor.toNat / 2)).map
             (fun s => demean (windowAt data s (((fs : ℚ) * wsec).floor.toNat)))).map
             (fun seg => bandPower (welchF seg).1 (welchF seg).2 blh.2.1 blh.2.2)))
    := rfl

/-- `Rat.floor` agrees with the floor of the `FloorRing` instance. -/
lemma rat_floor_eq_intFloor (q : ℚ) : q.floor = ⌊q⌋ := by
  rw [Rat.floor_def', Rat.floor_def]

/-- At the default rate and window, `int(fs * window_sec) = 512`. -/
lemma ws_default : ((((256 : ℕ) : ℚ)) * 2).floor.toNat = 512 := by
  rw [rat_floor_eq_intFloor]
  have h : (((256 : ℕ) : ℚ)) * 2 = (512 : ℚ) := by norm_num
  rw [h]
  norm_num
  rfl

/-- Variant of `ws_default` with the coercion collapsed to a ℚ literal. -/
lemma ws_default2 : ((256 : ℚ) * 2).floor.toNat = 512 := by
  rw [rat_floor_eq_intFloor]
  have h : ((256 : ℚ)) * 2 = (512 : ℚ) := by norm_num
  rw [h]
  norm_num
  rfl

/-- C10. With the default 2-second window at 256 Hz, inputs of at most 512
samples produce empty time and power sequences (the window-start loop has
the exclusive bound `n - window_samples`), and strictly more than one full
window of samples produces at least one result. -/
theorem band_powers_need_more_than_one_window (welchF : WelchFn) (data : List ℚ) :
    (data.length ≤ 512 →
      (compute_band_powers welchF data 256 2).1 = [] ∧
      ∀ p ∈ (compute_band_powers welchF data 256 2).2, p.2 = []) ∧
    (512 < data.length → (compute_band_powers welchF data 256 2).1 ≠ []) := by
  constructor
  · intro hn
    have hsub : data.length - (((256 : ℕ) : ℚ) * 2).floor.toNat = 0 := by
      rw [ws_default]; omega
    have hstarts : pyRange (data.length - (((256 : ℕ) : ℚ) * 2).floor.toNat)
        ((((256 : ℕ) : ℚ) * 2).floor.toNat / 2) = [] := by
      rw [hsub, ws_default]
      rfl
    constructor
    · rw [cbp_fst, hstarts]
      rfl
    · intro p hp
      rw [cbp_snd, hstarts] at hp
      simp only [List.map_nil] at hp
      obtain ⟨blh, _, rfl⟩ := List.mem_map.1 hp
      rfl
  · intro hn hcon
    rw [cbp_fst] at hcon
    have h2 := congrArg List.length hcon
    rw [List.length_map, pyRange, List.length_map, List.length_range, pyRangeLen,
      ws_default] at h2
    norm_num at h2
    omega

theorem band_powers_need_more_than_one_window_witness :
    ((List.replicate 200 (0 : ℚ)).length ≤ 512 ∧
      512 < (List.replicate 513 (0 : ℚ)).length) ∧
    ((compute_band_powers (fun l => (l, l)) (List.replicate 200 (0 : ℚ)) 256 2).1 = [] ∧
      ∀ p ∈ (compute_band_powers (fun l => (l, l)) (List.replicate 200 (0 : ℚ)) 256 2).2,
        p.2 = []) ∧
    (compute_band_powers (fun l => (l, l)) (List.replicate 513 (0 : ℚ)) 256 2).1 ≠ [] :=
  ⟨⟨by decide, by decide⟩,
   (band_powers_need_more_than_one_window (fun l => (l, l))
     (List.replicate 200 0)).1 (by decide),
   (band_powers_need_more_than_one_window (fun l => (l, l))
     (List.replicate 513 0)).2 (by decide)⟩

/-- The five band names carry distinct frequency ranges. -/
lemma bands_ranges_unique (nm : String) (lo hi lo' hi' : ℚ)
    (h1 : (nm, lo, hi) ∈ BANDS) (h2 : (nm, lo', hi') ∈ BANDS) :
    lo' = lo ∧ hi' = hi := by
  simp only [BANDS, List.mem_cons, List.not_mem_nil, or_false, Prod.mk.injEq] at h1 h2
  rcases h1 with ⟨e1, e2, e3⟩ | ⟨e1, e2, e3⟩ | ⟨e1, e2, e3⟩ | ⟨e1, e2, e3⟩ | ⟨e1, e2, e3⟩ <;>
    subst e1 <;>
    rcases h2 with ⟨f1, f2, f3⟩ | ⟨f1, f2, f3⟩ | ⟨f1, f2, f3⟩ | ⟨f1, f2, f3⟩ | ⟨f1, f2, f3⟩ <;>
      first
        | exact absurd f1 (by decide)
        | exact ⟨f2.trans e2.symm, f3.trans e3.symm⟩

/-- C6. At the default 2-second window and 256 Hz: the analyzer emits the
five fixed bands in order; one result per window per band; window `j`
starts at `j * 256` (step = half the 512-sample window), is mean-removed
before spectral estimation, and is timestamped at the window center
`(j * 256 + 256) / 256` seconds; each band value is the mean PSD magnitude
over the frequency bins inside the band, and 0 when no bin falls inside. -/
theorem band_powers_structure (welchF : WelchFn) (data : List ℚ) :
    ((compute_band_powers welchF data 256 2).2.map Prod.fst
        = ["delta", "theta", "alpha", "beta", "gamma"] ∧
      ∀ p ∈ (compute_band_powers welchF data 256 2).2,
        p.2.length = (compute_band_powers welchF data 256 2).1.length) ∧
    (∀ j, j < (compute_band_powers welchF data 256 2).1.length →
      (compute_band_powers welchF data 256 2).1.getD j 0
        = ((j : ℚ) * 256 + 256) / 256) ∧
    (∀ nm lo hi l, (nm, lo, hi) ∈ BANDS →
      (nm, l) ∈ (compute_band_powers welchF data 256 2).2 →
      ∀ j, j < l.length →
        l.getD j 0
          = if ∃ f ∈ (welchF (demean (windowAt data (j * 256) 512))).1,
                lo ≤ f ∧ f ≤ hi
            then npMean (inBandPSD (welchF (demean (windowAt data (j * 256) 512))).1
                   (welchF (demean (windowAt data (j * 256) 512))).2 lo hi)
            else 0) := by
  have hdiv : (512 : ℕ) / 2 = 256 := rfl
  have he : (compute_band_powers welchF data 256 2).1
      = (List.range (pyRangeLen (data.length - 512) 256)).map
          (fun i => (((i * 256 : ℕ) : ℚ) + ((512 : ℕ) : ℚ) / 2) / ((256 : ℕ) : ℚ)) := by
    rw [cbp_fst, ws_default, pyRange, hdiv, List.map_map]
    rfl
  refine ⟨⟨?_, ?_⟩, ?_, ?_⟩
  · rw [cbp_snd, List.map_map]
    rfl
  · intro p hp
    rw [cbp_snd] at hp
    obtain ⟨blh, _, rfl⟩ := List.mem_map.1 hp
    rw [cbp_fst]
    simp only [List.length_map]
  · intro j hj
    rw [he] at hj ⊢
    have hj' : j < pyRangeLen (data.length - 512) 256 := by
      simpa using hj
    rw [List.getD_eq_getElem _ _ hj, List.getElem_map, List.getElem_range]
    push_cast
    norm_num
  · intro nm lo hi l h1 h2 j hj
    rw [cbp_snd] at h2
    obtain ⟨blh, hblh, heq⟩ := List.mem_map.1 h2
    obtain ⟨nm', lo', hi'⟩ := blh
    simp only [Prod.mk.injEq] at heq
    obtain ⟨hnm, hl⟩ := heq
    subst hnm
    obtain ⟨hlo, hhi⟩ := bands_ranges_unique _ lo hi lo' hi' h1 hblh
    subst hlo
    subst hhi
    have he2 : ((pyRange (data.length - (((256 : ℕ) : ℚ) * 2).floor.toNat)
          ((((256 : ℕ) : ℚ) * 2).floor.toNat / 2)).map
          (fun s => demean (windowAt data s ((((256 : ℕ) : ℚ)) * 2).floor.toNat))).map
          (fun seg => bandPower (welchF seg).1 (welchF seg).2 lo' hi')
        = (List.range (pyRangeLen (data.length - 512) 256)).map
          (fun i => bandPower (welchF (demean (windowAt data (i * 256) 512))).1
            (welchF (demean (windowAt data (i * 256) 512))).2 lo' hi') := by
      rw [ws_default, pyRange, hdiv, List.map_map, List.map_map]
      rfl
    rw [← hl] at hj ⊢
    rw [he2] at hj ⊢
    have hj' : j < pyRangeLen (data.length - 512) 256 := by
      simpa using hj
    rw [List.getD_eq_getElem _ _ hj, List.getElem_map, List.getElem_range]
    rw [bandPower]
    simp only [List.any_eq_true, Bool.and_eq_true, decide_eq_true_eq]

theorem band_powers_structure_witness :
    ((compute_band_powers (fun _ => ([8], [4])) (List.replicate 513 (0 : ℚ)) 256 2).2.map
        Prod.fst = ["delta", "theta", "alpha", "beta", "gamma"]) ∧
    (0 < (compute_band_powers (fun _ => ([8], [4])) (List.replicate 513 (0 : ℚ)) 256 2).1.length) ∧
    ((compute_band_powers (fun _ => ([8], [4])) (List.replicate 513 (0 : ℚ)) 256 2).1.getD 0 0
      = (((0 : ℕ) : ℚ) * 256 + 256) / 256) :=
  ⟨(band_powers_structure (fun _ => ([8], [4])) (List.replicate 513 0)).1.1,
   by simp [cbp_fst, pyRange, pyRangeLen, ws_default, ws_default2],
   (band_powers_structure (fun _ => ([8], [4])) (List.replicate 513 0)).2.1 0
     (by simp [cbp_fst, pyRange, pyRangeLen, ws_default, ws_default2])⟩

/-- Unfolding of the asymmetry component of `alpha_asymmetry`. -/
lemma asym_snd (logF : ℚ → ℚ) (welchF : WelchFn) (ld rd : List ℚ) (fs : ℕ)
    (wsec : ℚ) :
    (alpha_asymmetry logF welchF ld rd fs wsec).2
      = List.zipWith
          (fun lv rv => logF (rv + 1 / 10 ^ 10) - logF (lv + 1 / 10 ^ 10))
          ((((compute_band_powers welchF ld fs wsec).2.lookup "alpha").getD []).take
            (min (((compute_band_powers welchF ld fs wsec).2.lookup "alpha").getD
                []).length
              (((compute_band_powers welchF rd fs wsec).2.lookup "alpha").getD
                []).length))
          ((((compute_band_powers welchF rd fs wsec).2.lookup "alpha").getD []).take
            (min (((compute_band_powers welchF ld fs wsec).2.lookup "alpha").getD
                []).length
              (((compute_band_powers welchF rd fs wsec).2.lookup "alpha").getD
                []).length)) := rfl

/-- The alpha entry of the per-band powers, at the default parameters. -/
lemma cbp_lookup_alpha (welchF : WelchFn) (data : List ℚ) :
    (compute_band_powers welchF data 256 2).2.lookup "alpha"
      = some ((List.range (pyRangeLen (data.length - 512) 256)).map
          (fun i => bandPower (welchF (demean (windowAt data (i * 256) 512))).1
            (welchF (demean (windowAt data (i * 256) 512))).2 8 13)) := by
  have hdiv : (512 : ℕ) / 2 = 256 := rfl
  rw [cbp_snd, ws_default, pyRange, hdiv]
  simp only [BANDS, List.map_cons, List.map_nil, List.lookup, List.map_map]
  norm_num
  rfl

/-- C8. When the left and right inputs coincide, every asymmetry output
`ln(rightPower + 1e-10) - ln(leftPower + 1e-10)` is exactly 0 (for any log
function, since both sides compute the same alpha power); in particular a
600-sample constant input yields one window with asymmetry exactly 0. -/
theorem asymmetry_equal_inputs_zero (logF : ℚ → ℚ) (welchF : WelchFn) (fs : ℕ)
    (wsec : ℚ) (data : List ℚ) (c : ℚ) :
    (∀ x ∈ (alpha_asymmetry logF welchF data data fs wsec).2, x = 0) ∧
    (alpha_asymmetry logF welchF (List.replicate 600 c) (List.replicate 600 c)
        256 2).2 = [0] := by
  constructor
  · intro x hx
    rw [asym_snd, min_self, List.zipWith_same] at hx
    obtain ⟨a, _, rfl⟩ := List.mem_map.1 hx
    exact sub_self _
  · rw [asym_snd, min_self, List.zipWith_same, cbp_lookup_alpha]
    have hlen : (List.replicate 600 c).length = 600 := List.length_replicate 600 c
    rw [hlen]
    have hcnt : pyRangeLen (600 - 512) 256 = 1 := rfl
    rw [hcnt]
    have hr : List.range 1 = [0] := rfl
    rw [hr]
    simp only [Option.getD_some, List.map_cons, List.map_nil, List.take_succ_cons,
      List.length_cons, List.length_nil, List.take_nil, List.take_zero]
    rw [sub_self]

theorem asymmetry_equal_inputs_zero_witness : (0 : ℚ) = 0 :=
  (asymmetry_equal_inputs_zero (fun q => q) (fun l => (l, l)) 256 2
      (List.replicate 600 3) 3).1 0 (by
    rw [(asymmetry_equal_inputs_zero (fun q => q) (fun l => (l, l)) 256 2
      (List.replicate 600 3) 3).2]
    exact List.mem_singleton.2 rfl)

/-- C9. The codec → buffer → analyzer pipeline is a pure function of the
frame sequence: two runs on the same frames give identical outputs.  In
this embedding the pipeline is by construction a function of its byte
inputs, with no hidden state. -/
theorem pipeline_deterministic (welchF : WelchFn) (frames1 frames2 : List (List ℕ))
    (h : frames1 = frames2) :
    pipeline welchF frames1 = pipeline welchF frames2 := by rw [h]

theorem pipeline_deterministic_witness :
    ([[(1 : ℕ), 2, 3]] = [[(1 : ℕ), 2, 3]]) ∧
    pipeline (fun l => (l, l)) [[(1 : ℕ), 2, 3]]
      = pipeline (fun l => (l, l)) [[(1 : ℕ), 2, 3]] :=
  ⟨rfl, pipeline_deterministic (fun l => (l, l)) [[(1 : ℕ), 2, 3]] [[(1 : ℕ), 2, 3]] rfl⟩

-- ---------------------------------------------------------------------
-- Connection supervision loop (visualize.py lines 390-446).
-- ---------------------------------------------------------------------

/-- Observable actions of `MuseBLE._run`: a call of `_connect_and_stream`
(with its 1-based attempt number), an `asyncio.sleep` of a whole number of
seconds, entering the `Streaming` state, the terminal "Could not connect.
Power cycle Muse and restart." return, and the return after a requested
stop. -/
inductive Act where
  | connectCall (attempt : ℕ)
  | sleepSec (secs : ℕ)
  | streamStart
  | terminalFail
  | stopExit
deriving DecidableEq

/-- What ends a streaming period: a detected link loss (the
`ConnectionError` raised when `client.is_connected` turns false), or a
deliberate stop request (`self._stop`). -/
inductive StreamEv where
  | linkLoss
  | stopReq
deriving DecidableEq

/-- Outcome of one pass through the bounded `for attempt in
range(1, MAX_RETRIES + 1)` loop. -/
inductive RoundOut where
  | connected
  | exhausted
deriving DecidableEq

/-- `MAX_RETRIES = 5` (visualize.py line 391). -/
def MAX_RETRIES : ℕ := 5

/-- The `for attempt in ...` loop body (visualize.py lines 396-408), over
the list of remaining attempt numbers; `ok a` tells whether the
`_connect_and_stream` call of attempt `a` succeeds.  On success the loop
breaks; on failure it sleeps `min(attempt * 2, 10)` seconds; when the list
is exhausted the `for/else` clause reports terminal failure (lines
409-411). -/
def connectLoopAux (ok : ℕ → Bool) : List ℕ → List Act × RoundOut
  | [] => ([Act.terminalFail], RoundOut.exhausted)
  | a :: rest =>
    if ok a then ([Act.connectCall a], RoundOut.connected)
    else
      let r := connectLoopAux ok rest
      (Act.connectCall a :: Act.sleepSec (min (a * 2) 10) :: r.1, r.2)

/-- One pass of the bounded connect loop, attempts `1..MAX_RETRIES`. -/
def connectLoop (ok : ℕ → Bool) : List Act × RoundOut :=
  connectLoopAux ok (List.range' 1 MAX_RETRIES)

/-- The environment of a run: per round `r`, which connect attempts
succeed, and what ends the streaming period of that round. -/
structure Script where
  ok : ℕ → ℕ → Bool
  ev : ℕ → StreamEv

/-- `MuseBLE._run` (visualize.py lines 390-446) as a trace function: the
outer `while not self._stop` loop runs the bounded connect loop; on
exhaustion it returns (terminal); on success it streams until the round's
event; a link loss is caught by the `except` clause, which sleeps 3 seconds
and `continue`s into the next round; a stop request ends the run.  `fuel`
bounds the number of rounds so the recursion is structural; a run that
keeps reconnecting forever has no finite fuel at which it terminates. -/
def museRun (sc : Script) : ℕ → ℕ → List Act
  | _, 0 => []
  | r, fuel + 1 =>
    match (connectLoop (sc.ok r)).2 with
    | RoundOut.exhausted => (connectLoop (sc.ok r)).1
    | RoundOut.connected =>
      (connectLoop (sc.ok r)).1 ++ [Act.streamStart] ++
        (match sc.ev r with
         | StreamEv.stopReq => [Act.stopExit]
         | StreamEv.linkLoss => Act.sleepSec 3 :: museRun sc (r + 1) fuel)

/-- Is this action a `_connect_and_stream` call? -/
def isConnectCall : Act → Bool
  | Act.connectCall _ => true
  | _ => false

/-- The interleaved calls and backoff sleeps of a run of failed attempts. -/
def failActs : List ℕ → List Act
  | [] => []
  | a :: rest => Act.connectCall a :: Act.sleepSec (min (a * 2) 10) :: failActs rest

lemma connectLoopAux_countP (ok : ℕ → Bool) :
    ∀ l, ((connectLoopAux ok l).1.countP isConnectCall) ≤ l.length := by
  intro l
  induction l with
  | nil => simp [connectLoopAux, List.countP_cons, isConnectCall]
  | cons a rest ih =>
    rw [connectLoopAux]
    split
    · simp [List.countP_cons, isConnectCall]
    · simp [List.countP_cons, isConnectCall]
      omega

lemma connectLoopAux_all_fail (ok : ℕ → Bool) :
    ∀ l, (∀ a ∈ l, ok a = false) →
      connectLoopAux ok l = (failActs l ++ [Act.terminalFail], RoundOut.exhausted) := by
  intro l
  induction l with
  | nil => intro _; rfl
  | cons a rest ih =>
    intro h
    rw [connectLoopAux, if_neg (by rw [h a (by simp)]; simp),
      ih (fun b hb => h b (by simp [hb])), failActs]
    rfl

lemma connectLoopAux_success (ok : ℕ → Bool) :
    ∀ pre k post, (∀ a ∈ pre, ok a = false) → ok k = true →
      connectLoopAux ok (pre ++ k :: post)
        = (failActs pre ++ [Act.connectCall k], RoundOut.connected) := by
  intro pre
  induction pre with
  | nil =>
    intro k post _ hk
    rw [List.nil_append, connectLoopAux, if_pos hk, failActs, List.nil_append]
  | cons a rest ih =>
    intro k post h hk
    rw [List.cons_append, connectLoopAux, if_neg (by rw [h a (by simp)]; simp),
      ih k post (fun b hb => h b (by simp [hb])) hk, failActs]
    rfl

/-- C4. The initial connect sequence makes at most 5 `_connect_and_stream`
calls; a first success at attempt `k` stops the loop after exactly the
calls `1..k`, each failed attempt `j` being followed by a
`min(j * 2, 10)`-second backoff; if all 5 attempts fail the loop and the
whole run end in the terminal failure state with exactly 5 calls (sleeps
2, 4, 6, 8, 10) and no further connect call. -/
theorem initial_connect_bounded (ok : ℕ → Bool) (ev : ℕ → StreamEv) (fuel : ℕ) :
    ((connectLoop ok).1.countP isConnectCall ≤ 5) ∧
    (∀ k, 1 ≤ k → k ≤ 5 → ok k = true → (∀ j, 1 ≤ j → j < k → ok j = false) →
      connectLoop ok
        = (failActs (List.range' 1 (k - 1)) ++ [Act.connectCall k],
           RoundOut.connected)) ∧
    ((∀ k, 1 ≤ k → k ≤ 5 → ok k = false) →
      connectLoop ok
        = ([Act.connectCall 1, Act.sleepSec 2, Act.connectCall 2, Act.sleepSec 4,
            Act.connectCall 3, Act.sleepSec 6, Act.connectCall 4, Act.sleepSec 8,
            Act.connectCall 5, Act.sleepSec 10, Act.terminalFail],
           RoundOut.exhausted) ∧
      museRun ⟨fun _ => ok, ev⟩ 0 (fuel + 1)
        = [Act.connectCall 1, Act.sleepSec 2, Act.connectCall 2, Act.sleepSec 4,
           Act.connectCall 3, Act.sleepSec 6, Act.connectCall 4, Act.sleepSec 8,
           Act.connectCall 5, Act.sleepSec 10, Act.terminalFail]) := by
  refine ⟨?_, ?_, ?_⟩
  · calc (connectLoop ok).1.countP isConnectCall
        ≤ (List.range' 1 MAX_RETRIES).length := connectLoopAux_countP ok _
      _ = 5 := by simp [MAX_RETRIES]
  · intro k hk1 hk5 hok hfail
    interval_cases k
    · exact connectLoopAux_success ok [] 1 [2, 3, 4, 5] (by simp) hok
    · exact connectLoopAux_success ok [1] 2 [3, 4, 5]
        (by intro a ha; simp at ha; subst ha; exact hfail 1 (by omega) (by omega)) hok
    · exact connectLoopAux_success ok [1, 2] 3 [4, 5]
        (by intro a ha; simp at ha
            rcases ha with rfl | rfl <;> exact hfail _ (by omega) (by omega)) hok
    · exact connectLoopAux_success ok [1, 2, 3] 4 [5]
        (by intro a ha; simp at ha
            rcases ha with rfl | rfl | rfl <;> exact hfail _ (by omega) (by omega)) hok
    · exact connectLoopAux_success ok [1, 2, 3, 4] 5 []
        (by intro a ha; simp at ha
            rcases ha with rfl | rfl | rfl | rfl <;>
              exact hfail _ (by omega) (by omega)) hok
  · intro hfail
    have hall : ∀ a ∈ [1, 2, 3, 4, 5], ok a = false := by
      intro a ha
      simp at ha
      rcases ha with rfl | rfl | rfl | rfl | rfl <;> exact hfail _ (by omega) (by omega)
    have hcl : connectLoop ok
        = ([Act.connectCall 1, Act.sleepSec 2, Act.connectCall 2, Act.sleepSec 4,
            Act.connectCall 3, Act.sleepSec 6, Act.connectCall 4, Act.sleepSec 8,
            Act.connectCall 5, Act.sleepSec 10, Act.terminalFail],
           RoundOut.exhausted) := connectLoopAux_all_fail ok [1, 2, 3, 4, 5] hall
    refine ⟨hcl, ?_⟩
    show (match (connectLoop ((⟨fun _ => ok, ev⟩ : Script).ok 0)).2 with
      | RoundOut.exhausted => (connectLoop ((⟨fun _ => ok, ev⟩ : Script).ok 0)).1
      | RoundOut.connected =>
        (connectLoop ((⟨fun _ => ok, ev⟩ : Script).ok 0)).1 ++ [Act.streamStart] ++
          (match (⟨fun _ => ok, ev⟩ : Script).ev 0 with
           | StreamEv.stopReq => [Act.stopExit]
           | StreamEv.linkLoss =>
             Act.sleepSec 3 :: museRun ⟨fun _ => ok, ev⟩ 1 fuel)) = _
    rw [show (⟨fun _ => ok, ev⟩ : Script).ok 0 = ok from rfl, hcl]

theorem initial_connect_bounded_witness :
    ((connectLoop (fun k => k == 3)).1.countP isConnectCall ≤ 5) ∧
    connectLoop (fun k => k == 3)
      = (failActs [1, 2] ++ [Act.connectCall 3], RoundOut.connected) :=
  ⟨(initial_connect_bounded (fun k => k == 3) (fun _ => StreamEv.linkLoss) 0).1,
   (initial_connect_bounded (fun k => k == 3) (fun _ => StreamEv.linkLoss) 0).2.1
     3 (by decide) (by decide) (by decide)
     (by intro j h1 h2; interval_cases j <;> decide)⟩

/-- When the bounded loop exhausts all attempts its trace ends with the
terminal failure action. -/
lemma connectLoopAux_exhausted_last (ok : ℕ → Bool) :
    ∀ l, (connectLoopAux ok l).2 = RoundOut.exhausted →
      (connectLoopAux ok l).1.getLast? = some Act.terminalFail := by
  intro l
  induction l with
  | nil => intro _; rfl
  | cons a rest ih =>
    intro h
    rw [connectLoopAux] at h ⊢
    by_cases hok : ok a
    · rw [if_pos hok] at h
      exact absurd h (by simp)
    · rw [if_neg hok] at h ⊢
      simp only at h ⊢
      have hne : (connectLoopAux ok rest).1 ≠ [] := by
        cases rest with
        | nil => simp [connectLoopAux]
        | cons b r2 =>
          rw [connectLoopAux]
          split <;> simp
      rw [List.getLast?_cons_cons]
      cases hcl : (connectLoopAux ok rest).1 with
      | nil => exact absurd hcl hne
      | cons x xs =>
        rw [List.getLast?_cons_cons]
        rw [← hcl]
        exact ih h

/-- C2 (amended).  While `Streaming`, a link loss that is not a deliberate
stop triggers one fixed 3-second delay and then re-entry into the same
bounded connect loop; reconnection is NOT unbounded: when the loop's 5
attempts all fail (at most 5 connect calls), the run ends in the terminal
failure state. -/
theorem link_loss_reenters_bounded_loop (sc : Script) (r fuel : ℕ)
    (hloss : sc.ev r = StreamEv.linkLoss) :
    ((connectLoop (sc.ok r)).2 = RoundOut.connected →
      museRun sc r (fuel + 1)
        = (connectLoop (sc.ok r)).1 ++ [Act.streamStart]
            ++ Act.sleepSec 3 :: museRun sc (r + 1) fuel) ∧
    ((connectLoop (sc.ok r)).2 = RoundOut.exhausted →
      museRun sc r (fuel + 1) = (connectLoop (sc.ok r)).1 ∧
      (museRun sc r (fuel + 1)).getLast? = some Act.terminalFail ∧
      (museRun sc r (fuel + 1)).countP isConnectCall ≤ 5) := by
  have hrun : museRun sc r (fuel + 1)
      = match (connectLoop (sc.ok r)).2 with
        | RoundOut.exhausted => (connectLoop (sc.ok r)).1
        | RoundOut.connected =>
          (connectLoop (sc.ok r)).1 ++ [Act.streamStart] ++
            (match sc.ev r with
             | StreamEv.stopReq => [Act.stopExit]
             | StreamEv.linkLoss => Act.sleepSec 3 :: museRun sc (r + 1) fuel) := rfl
  constructor
  · intro hcon
    rw [hrun, hcon, hloss]
  · intro hex
    rw [hrun, hex]
    refine ⟨rfl, connectLoopAux_exhausted_last (sc.ok r) _ hex, ?_⟩
    calc (connectLoop (sc.ok r)).1.countP isConnectCall
        ≤ (List.range' 1 MAX_RETRIES).length := connectLoopAux_countP (sc.ok r) _
      _ = 5 := by simp [MAX_RETRIES]

theorem link_loss_reenters_bounded_loop_witness :
    museRun ⟨fun _ k => k == 1, fun _ => StreamEv.linkLoss⟩ 0 1
      = (connectLoop ((⟨fun _ k => k == 1,
            fun _ => StreamEv.linkLoss⟩ : Script).ok 0)).1
          ++ [Act.streamStart]
          ++ Act.sleepSec 3
            :: museRun ⟨fun _ k => k == 1, fun _ => StreamEv.linkLoss⟩ 1 0 :=
  (link_loss_reenters_bounded_loop
    ⟨fun _ k => k == 1, fun _ => StreamEv.linkLoss⟩ 0 0 rfl).1 rfl

/-- The script of the C2 counterexample: round 0 connects on the first
attempt and then loses the link; every reconnection attempt of round 1
fails. -/
def cexScript : Script :=
  ⟨fun r k => r == 0 && k == 1, fun _ => StreamEv.linkLoss⟩

/-- C2 counterexample: after a link loss with no stop requested, the run
reaches the terminal failure state once the 5 reconnection attempts fail —
the claimed unbounded retry loop (never terminal until success or stop)
does not hold, and the inter-attempt delays are min(k*2, 10), not 3. -/
theorem link_loss_terminal_counterexample :
    museRun cexScript 0 2
      = [Act.connectCall 1, Act.streamStart, Act.sleepSec 3,
         Act.connectCall 1, Act.sleepSec 2, Act.connectCall 2, Act.sleepSec 4,
         Act.connectCall 3, Act.sleepSec 6, Act.connectCall 4, Act.sleepSec 8,
         Act.connectCall 5, Act.sleepSec 10, Act.terminalFail] ∧
    Act.terminalFail ∈ museRun cexScript 0 2 ∧
    Act.stopExit ∉ museRun cexScript 0 2 :=
  ⟨rfl, by decide, by decide⟩
